import Mathlib

/-!
Shallow embedding of the DFlood protocol engine (`python/dflood.py`,
class `dflood`) for the claims under verification.

Modelling conventions:
* Wall-clock instants and intervals (Python floats from `time.time()` and the
  backoff / EMA arithmetic) are modelled as rationals `ℚ`; the literals `0.8`
  and `0.2` of the interval EMA become `4/5` and `1/5`.
* The three soft-state tables (Python dicts of namedtuples) are association
  lists; `alUpdate` replaces the first binding in place or appends a new one,
  matching insertion-ordered dict update.
* Python exceptions that can escape a handler (`NameError`, `IndexError`,
  `TypeError` on `len(None)`, `KeyError`, `ValueError` of `min([])`) are
  explicit `Err` values in the handler result; the result also carries the
  state mutations and port emissions performed before the raise, since the
  Python object is mutated in place.
* `random.random()` draws and the current time are inputs of each event.
* Constructor parameters that the engine never reassigns live in `Cfg`;
  `broadcast_interval` is reassigned by `handle_sink_packet` so it lives in
  the mutable `Engine` state.
-/

namespace DFlood

abbrev Time := ℚ

/-- Metadata dictionary of a PDU; the engine only reads the `CRC_OK` key
(`none` models an absent key, defaulting to true). -/
structure Meta where
  crc_ok : Option Bool
deriving DecidableEq

/-- Value of a sink-neighbor table entry (`SinkNeighborVal`). -/
structure SinkNeighborVal where
  last_rcvd_seq_num : Nat
  min_dx_to_sink : Nat
  last_time_heard : Time
  broadcast_interval : ℚ
deriving DecidableEq

/-- Value of a sink table entry (`SinkVal`). -/
structure SinkVal where
  highest_rcvd_seq_num : Nat
  min_dx_to_sink : Nat
  last_time_heard : Time
  forwarding_time : Time
  scheduled : Bool
  temp_min_dx_to_sink : Nat
deriving DecidableEq

/-- Value of a data packet table entry (`DataPktVal`); `data = none`
models the Python `None` stored after a forward or a cancellation. -/
structure DataPktVal where
  data : Option (List Nat)
  last_time_heard : Time
  forwarding_time : Time
  scheduled : Bool
  duplicates : Nat
deriving DecidableEq

/-- Sink-neighbor table key `(Sender, Source)`. -/
abbrev SNKey := Nat × Nat

/-- Data packet table key `(Source, DestSink, SeqNum)`. -/
abbrev DKey := Nat × Nat × Nat

/-- Lookup in an association list (first binding wins, like a dict). -/
def alLookup {K V : Type} [DecidableEq K] (l : List (K × V)) (k : K) : Option V :=
  match l with
  | [] => none
  | (k', v) :: t => if k' = k then some v else alLookup t k

/-- Dict-style update: replace the first binding of `k` in place, or append
a new binding at the end. -/
def alUpdate {K V : Type} [DecidableEq K] (k : K) (v : V) : List (K × V) → List (K × V)
  | [] => [(k, v)]
  | (k', v') :: t => if k' = k then (k, v) :: t else (k', v') :: alUpdate k v t

/-- Immutable per-node construction parameters (never reassigned by the
source after `__init__`). -/
structure Cfg where
  addr : Nat
  SINK_ADDR : Nat
  Tmin : ℚ
  Tmax : ℚ
  Ndupl : Nat
  Plt : ℚ
  Slt : ℚ
  R : Nat
  debug_stderr : Bool
deriving DecidableEq

/-- Mutable engine state: the three tables plus the reassignable scalars. -/
structure Engine where
  broadcast_interval : ℚ
  sequence_number : Nat
  sink_pkt_xmit_time : Option Time
  pkt_cnt : Nat
  sinkNeighborTable : List (SNKey × SinkNeighborVal)
  sinkTable : List (Nat × SinkVal)
  dataPacketTable : List (DKey × DataPktVal)
deriving DecidableEq

def large_backoff : ℚ := 5
def small_backoff : ℚ := 5/2
def low_backoff : ℚ := 1

/-- An emission on an output port; each constructor corresponds to one
`message_port_pub` call site of the source. -/
inductive Out where
  | sinkPkt (bytes : List Nat)
  | notiPkt (bytes : List Nat)
  | dataPkt (bytes : List Nat)
  | fwdData (key : DKey) (bytes : List Nat)
  | toApp (meta : Meta) (bytes : List Nat)
deriving DecidableEq

/-- Python exceptions that can escape a handler. -/
inductive Err where
  | nameError
  | indexError
  | typeErrorNone
  | keyError
  | valueErrorEmptyMin
deriving DecidableEq

/-- Result of running one handler: the state as mutated up to the return (or
up to the raise point), the port emissions performed, and the escaped
exception if any. -/
structure Res where
  eng : Engine
  outs : List Out
  err : Option Err
deriving DecidableEq

/-- Shape of an incoming radio message as seen by `radio_rx`. -/
inductive RMsg where
  | notPair
  | nonU8 (meta : Option Meta)
  | ok (meta : Option Meta) (bytes : List Nat)
deriving DecidableEq

/-- Shape of an incoming application message as seen by `app_rx`. -/
inductive AMsg where
  | notPair
  | nonU8 (meta : Option Meta)
  | ok (meta : Option Meta) (payload : List Nat)
deriving DecidableEq

/-- `minium_addr_in_sink_neighbor_table`: `min` over the sender components of
the key list; `none` models the `ValueError` of `min([])`. -/
def minium_addr_in_sink_neighbor_table
    (t : List (SNKey × SinkNeighborVal)) : Option Nat :=
  (t.map fun kv => kv.1.1).min?

/-- Sink-table part of `handle_sink_packet`: rebuild of the entry value from
the saved locals (source lines 549-585). -/
def sinkValUpdate (v : SinkVal) (now : Time) (sn hc : Nat) : SinkVal :=
  if v.highest_rcvd_seq_num < sn then
    { v with highest_rcvd_seq_num := sn,
             last_time_heard := now,
             forwarding_time :=
               now + (if v.min_dx_to_sink < hc then large_backoff else small_backoff),
             scheduled := true,
             temp_min_dx_to_sink := hc }
  else if sn = v.highest_rcvd_seq_num then
    if v.scheduled = false then
      if hc < v.min_dx_to_sink then
        { v with last_time_heard := now,
                 forwarding_time := now + low_backoff,
                 scheduled := true }
      else { v with last_time_heard := now }
    else if hc < v.temp_min_dx_to_sink then
      { v with last_time_heard := now, temp_min_dx_to_sink := hc }
    else { v with last_time_heard := now }
  else { v with last_time_heard := now }

/-- Sink-table related processing of `handle_sink_packet` (lines 526-586). -/
def sinkTableUpdate (e : Engine) (now : Time) (b : List Nat) : Res :=
  match alLookup e.sinkTable (b.getD 2 0) with
  | none =>
    let t := alUpdate (b.getD 2 0)
      ⟨b.getD 3 0, b.getD 4 0 + 1, now, now + small_backoff, true, b.getD 4 0⟩
      e.sinkTable
    ⟨{ e with sinkTable := t }, [], none⟩
  | some v =>
    let t := alUpdate (b.getD 2 0) (sinkValUpdate v now (b.getD 3 0) (b.getD 4 0))
      e.sinkTable
    ⟨{ e with sinkTable := t }, [], none⟩

/-- Broadcast-interval arbitration of `handle_sink_packet` (lines 514-518),
run on the state in which the sink-neighbor entry has already been written:
if this node's address exceeds the minimum sender address in the
sink-neighbor table, adopt the just-updated entry's interval.  `min([])`
would raise `ValueError`, a missing key would raise `KeyError`. -/
def sinkArbitrate (c : Cfg) (e : Engine) (now : Time) (b : List Nat) : Res :=
  match minium_addr_in_sink_neighbor_table e.sinkNeighborTable with
  | none => ⟨e, [], some Err.valueErrorEmptyMin⟩
  | some m =>
    match alLookup e.sinkNeighborTable (b.getD 1 0, b.getD 2 0) with
    | none => ⟨e, [], some Err.keyError⟩
    | some snv =>
      if m < c.addr then
        sinkTableUpdate { e with broadcast_interval := snv.broadcast_interval } now b
      else sinkTableUpdate e now b

/-- Continuation of `handle_sink_packet` once `nbi` is bound: write the
sink-neighbor entry, arbitrate the broadcast interval via the minimum
neighbor address, then update the sink table (lines 507-586). -/
def handle_sink_packet_core (c : Cfg) (e : Engine) (now : Time) (b : List Nat)
    (nbi : ℚ) : Res :=
  sinkArbitrate c
    { e with sinkNeighborTable :=
        (alUpdate (b.getD 1 0, b.getD 2 0) ⟨b.getD 3 0, b.getD 4 0, now, nbi⟩
          e.sinkNeighborTable) }
    now b

/-- `handle_sink_packet`.  In the source, `nbi` is assigned only inside the
two `debug_stderr`-guarded branches (lines 493-506); its use at line 512
raises `NameError` when debug is off. -/
def handle_sink_packet (c : Cfg) (e : Engine) (now : Time) (b : List Nat) : Res :=
  match alLookup e.sinkNeighborTable (b.getD 1 0, b.getD 2 0), c.debug_stderr with
  | none, true => handle_sink_packet_core c e now b e.broadcast_interval
  | some v, true =>
    handle_sink_packet_core c e now b
      (4/5 * v.broadcast_interval + 1/5 * (now - v.last_time_heard))
  | none, false => ⟨e, [], some Err.nameError⟩
  | some _, false => ⟨e, [], some Err.nameError⟩

/-- `handle_data_packet` (lines 597-659); `rnd` is the `random.random()`
draw used for the forwarding delay. -/
def handle_data_packet (c : Cfg) (e : Engine) (now rnd : Time) (b : List Nat)
    (meta : Meta) : Res :=
  if b.getD 5 0 = c.addr then
    ⟨e, [Out.notiPkt [2, c.addr, b.getD 2 0, b.getD 3 0],
         Out.toApp meta (b.drop 7)], none⟩
  else
    match alLookup e.sinkTable (b.getD 5 0) with
    | none => ⟨e, [], none⟩
    | some sv =>
      if (b.getD 6 0 : ℤ) - 1 < (sv.min_dx_to_sink : ℤ) then ⟨e, [], none⟩
      else
        match alLookup e.dataPacketTable (b.getD 2 0, b.getD 5 0, b.getD 3 0) with
        | none =>
          let t := alUpdate (b.getD 2 0, b.getD 5 0, b.getD 3 0)
            ⟨some (((b.set 1 c.addr).set 4 sv.min_dx_to_sink).set 6 (b.getD 6 0 - 1)),
             now, now + c.Tmin + rnd * (c.Tmax - c.Tmin), true, 0⟩
            e.dataPacketTable
          ⟨{ e with dataPacketTable := t }, [], none⟩
        | some v =>
          if b.getD 4 0 ≤ sv.min_dx_to_sink then
            let t := alUpdate (b.getD 2 0, b.getD 5 0, b.getD 3 0)
              ⟨v.data, v.last_time_heard, v.forwarding_time,
               decide (v.duplicates + 1 < c.Ndupl), v.duplicates + 1⟩
              e.dataPacketTable
            ⟨{ e with dataPacketTable := t }, [], none⟩
          else ⟨e, [], none⟩

/-- `handle_receive_notification` (lines 664-677). -/
def handle_receive_notification (e : Engine) (b : List Nat) : Res :=
  match alLookup e.dataPacketTable (b.getD 2 0, b.getD 1 0, b.getD 3 0) with
  | none => ⟨e, [], none⟩
  | some v =>
    let t := alUpdate (b.getD 2 0, b.getD 1 0, b.getD 3 0)
      ⟨none, v.last_time_heard, 0, false, v.duplicates⟩ e.dataPacketTable
    ⟨{ e with dataPacketTable := t }, [], none⟩

/-- `send_pkt_radio` (lines 354-387). -/
def send_pkt_radio (c : Cfg) (e : Engine) (payload : List Nat) (cnt : Nat) : Res :=
  match alLookup e.sinkTable c.SINK_ADDR with
  | none => ⟨e, [], none⟩
  | some sv =>
    ⟨e, [Out.dataPkt ([0, c.addr, c.addr, cnt, sv.min_dx_to_sink, c.SINK_ADDR,
                       sv.min_dx_to_sink + c.R] ++ payload)], none⟩

/-- `app_rx` / `_app_rx` (lines 280-317): after a structurally valid ingress
the packet counter is incremented unconditionally. -/
def app_rx (c : Cfg) (e : Engine) : AMsg → Res
  | AMsg.notPair => ⟨e, [], none⟩
  | AMsg.nonU8 _ => ⟨e, [], none⟩
  | AMsg.ok _ payload =>
    let r := send_pkt_radio c e payload e.pkt_cnt
    ⟨{ r.eng with pkt_cnt := (r.eng.pkt_cnt + 1) % 256 }, r.outs, r.err⟩

/-- `radio_rx` / `_radio_rx` (lines 392-482): validation chain then dispatch
on the protocol id.  Reading `data[0]` of an empty vector raises
`IndexError` (line 439 of the source has no length-0 guard). -/
def radio_rx (c : Cfg) (e : Engine) (now rnd : Time) : RMsg → Res
  | RMsg.notPair => ⟨e, [], none⟩
  | RMsg.nonU8 _ => ⟨e, [], none⟩
  | RMsg.ok meta? bytes =>
    if (meta?.getD ⟨none⟩).crc_ok.getD true = false then ⟨e, [], none⟩
    else
      match bytes with
      | [] => ⟨e, [], some Err.indexError⟩
      | p :: _ =>
        if ¬(p = 0 ∨ p = 1 ∨ p = 2) then ⟨e, [], none⟩
        else if (p = 0 ∧ bytes.length < 7) ∨ (p = 1 ∧ bytes.length ≠ 5) ∨
                (p = 2 ∧ bytes.length ≠ 4) then ⟨e, [], none⟩
        else if bytes.getD 1 0 = c.addr ∨ bytes.getD 2 0 = c.addr then ⟨e, [], none⟩
        else if p = 1 then handle_sink_packet c e now bytes
        else if p = 0 then handle_data_packet c e now rnd bytes (meta?.getD ⟨none⟩)
        else handle_receive_notification e bytes

/-- Beacon-origination condition of `ctrl_rx` for a sink node (lines
768-771); `rb` is the `random.random()` draw. -/
def beaconDue (e : Engine) (now rb : Time) : Bool :=
  match e.sink_pkt_xmit_time with
  | none => true
  | some t => decide (e.broadcast_interval * 2 * rb ≤ now - t)

/-- Sink-beacon origination step of `ctrl_rx` (lines 767-774); the emission
goes through `send_sink_pkt`, which records the transmit time. -/
def beaconPhase (c : Cfg) (e : Engine) (now rb : Time) : Engine × List Out :=
  if decide (0 < e.broadcast_interval) && beaconDue e now rb then
    ({ e with sink_pkt_xmit_time := some now,
              sequence_number := (e.sequence_number + 1) % 256 },
     [Out.sinkPkt [1, c.addr, c.addr, e.sequence_number, 0]])
  else (e, [])

/-- Scheduled sink-packet forwarding loop of `ctrl_rx` on a non-sink node
(lines 776-796).  The source builds the updated `SinkVal` (`scheduled :=
False`, `forwarding_time := 0`, `min_dx := temp + 1`) but assigns it only to
a local, never back into `sinkTable[k]`; hence the table is not modified
here.  `send_sink_pkt` still records the transmit time (line 738). -/
def sinkFwdLoop (c : Cfg) (e : Engine) (now : Time) :
    List (Nat × SinkVal) → Engine × List Out
  | [] => (e, [])
  | (k, v) :: rest =>
    if v.scheduled = true ∧ v.forwarding_time ≤ now then
      let p := sinkFwdLoop c { e with sink_pkt_xmit_time := some now } now rest
      (p.1, Out.sinkPkt [1, c.addr, k, v.highest_rcvd_seq_num, v.min_dx_to_sink]
              :: p.2)
    else sinkFwdLoop c e now rest

/-- Scheduled data-packet forwarding loop of `ctrl_rx` (lines 799-825),
iterating over a snapshot of the key list while reading and writing the live
table.  `len(None)` on an already-emptied entry raises `TypeError` before
anything is published. -/
def dataFwdLoop (c : Cfg) (e : Engine) (now : Time) :
    List (DKey × DataPktVal) → Res
  | [] => ⟨e, [], none⟩
  | (k, _) :: rest =>
    match alLookup e.dataPacketTable k with
    | none => ⟨e, [], some Err.keyError⟩
    | some v =>
      if v.scheduled = true ∧ v.duplicates ≤ c.Ndupl ∧ v.forwarding_time ≤ now then
        match v.data with
        | none => ⟨e, [], some Err.typeErrorNone⟩
        | some d =>
          let t := alUpdate k ⟨none, v.last_time_heard, 0, false, v.duplicates⟩
            e.dataPacketTable
          let r := dataFwdLoop c { e with dataPacketTable := t } now rest
          ⟨r.eng, Out.fwdData k d :: r.outs, r.err⟩
      else dataFwdLoop c e now rest

/-- `check_sink_neighbor_table` (lines 207-224): purge entries older than
`Slt`. -/
def check_sink_neighbor_table (c : Cfg) (e : Engine) (now : Time) : Engine :=
  let t := e.sinkNeighborTable.filter fun kv =>
    decide (now - kv.2.last_time_heard ≤ c.Slt)
  { e with sinkNeighborTable := t }

/-- `check_sink_table` (lines 239-254). -/
def check_sink_table (c : Cfg) (e : Engine) (now : Time) : Engine :=
  let t := e.sinkTable.filter fun kv => decide (now - kv.2.last_time_heard ≤ c.Slt)
  { e with sinkTable := t }

/-- `check_data_packet_table` (lines 259-274): lifetime `Plt`. -/
def check_data_packet_table (c : Cfg) (e : Engine) (now : Time) : Engine :=
  let t := e.dataPacketTable.filter fun kv =>
    decide (now - kv.2.last_time_heard ≤ c.Plt)
  { e with dataPacketTable := t }

/-- First phase of `ctrl_rx`: beacon origination on a sink node, scheduled
sink-packet forwards otherwise. -/
def ctrl_phase1 (c : Cfg) (e : Engine) (now rb : Time) : Engine × List Out :=
  if c.addr = c.SINK_ADDR then beaconPhase c e now rb
  else sinkFwdLoop c e now e.sinkTable

/-- Aging phase of `ctrl_rx` (lines 827-831), in source order. -/
def ctrl_age (c : Cfg) (e : Engine) (now : Time) : Engine :=
  check_data_packet_table c
    (check_sink_table c (check_sink_neighbor_table c e now) now) now

/-- Last phase of `ctrl_rx`: the aging runs only when no exception escaped
the data-forwarding loop. -/
def ctrl_finish (c : Cfg) (now : Time) (outs1 : List Out) (r : Res) : Res :=
  match r.err with
  | some er => ⟨r.eng, outs1 ++ r.outs, some er⟩
  | none => ⟨ctrl_age c r.eng now, outs1 ++ r.outs, none⟩

/-- `ctrl_rx` (lines 764-831): beacon or scheduled sink forwards, then
scheduled data forwards, then table aging. -/
def ctrl_rx (c : Cfg) (e : Engine) (now rb : Time) : Res :=
  ctrl_finish c now (ctrl_phase1 c e now rb).2
    (dataFwdLoop c (ctrl_phase1 c e now rb).1 now
      (ctrl_phase1 c e now rb).1.dataPacketTable)

/-- One external stimulus delivered to the engine, carrying the wall-clock
time and random draws the handler would sample. -/
inductive Event where
  | rfIn (now : Time) (m : RMsg) (rnd : Time)
  | appIn (m : AMsg)
  | tick (now : Time) (rb : Time)
deriving DecidableEq

/-- Dispatch one event to its handler. -/
def step (c : Cfg) (e : Engine) : Event → Res
  | Event.rfIn now m rnd => radio_rx c e now rnd m
  | Event.appIn m => app_rx c e m
  | Event.tick now rb => ctrl_rx c e now rb

/-- Run a sequence of events, accumulating all port emissions. -/
def run (c : Cfg) : Engine → List Event → Engine × List Out
  | e, [] => (e, [])
  | e, ev :: rest =>
    let r := step c e ev
    let p := run c r.eng rest
    (p.1, r.outs ++ p.2)

/-! ### Observation predicates -/

/-- Does this output forward the pending bytes of data-table entry `k`? -/
def isFwdFor (k : DKey) : Out → Bool
  | Out.fwdData q _ => decide (q = k)
  | _ => false

/-- Number of data forwards for key `k` in an emission list. -/
def countFwd (k : DKey) (outs : List Out) : Nat := outs.countP (isFwdFor k)

/-- The data-table entry for `k` exists and its pending bytes have been
emptied (Python `None`), by a forward or a cancellation. -/
def spentT (t : List (DKey × DataPktVal)) (k : DKey) : Prop :=
  ∃ v, alLookup t k = some v ∧ v.data = none

/-- The keys of an association list are pairwise distinct (true of every
table reachable from an empty one). -/
def NodupKeys {K V : Type} (l : List (K × V)) : Prop := (l.map Prod.fst).Nodup

/-- One event does not remove the data-table entry `k` (by aging). -/
def keptStep (c : Cfg) (e : Engine) (ev : Event) (k : DKey) : Prop :=
  alLookup e.dataPacketTable k ≠ none →
  alLookup (step c e ev).eng.dataPacketTable k ≠ none

/-- No event of the sequence removes the data-table entry `k`. -/
def keptAll (c : Cfg) (k : DKey) : Engine → List Event → Prop
  | _, [] => True
  | e, ev :: rest => keptStep c e ev k ∧ keptAll c k (step c e ev).eng rest

/-- Claim C6's invariant: every scheduled data-table entry has seen fewer
than `N` duplicates. -/
def dataInv (N : Nat) (t : List (DKey × DataPktVal)) : Prop :=
  ∀ kv ∈ t, kv.2.scheduled = true → kv.2.duplicates < N

/-! ### Concrete nodes and traces used by the closed theorems -/

/-- Non-sink node, debug on, defaults otherwise. -/
def cfgDbg : Cfg := ⟨1, 0, 5, 65, 2, 120, 50, 2, true⟩

/-- Non-sink node, debug off (the constructor default), defaults otherwise. -/
def cfgNoDbg : Cfg := ⟨1, 0, 5, 65, 2, 120, 50, 2, false⟩

/-- Non-sink node, debug on, `Ndupl = 0`. -/
def cfgN0 : Cfg := ⟨1, 0, 5, 65, 0, 120, 50, 2, true⟩

/-- Freshly constructed engine state. -/
def engFresh : Engine := ⟨30, 0, none, 0, [], [], []⟩

/-- Engine whose sink table has one scheduled entry whose forwarding time
has been reached at t = 12. -/
def engSched : Engine := ⟨30, 0, none, 0, [], [(0, ⟨4, 2, 10, 12, true, 0⟩)], []⟩

/-- Engine knowing a gradient toward sink 0 (one hop). -/
def engGrad : Engine := ⟨30, 0, none, 0, [], [(0, ⟨0, 1, 0, 5/2, true, 0⟩)], []⟩

/-- Engine whose sink-neighbor table already holds the key `(2, 3)`. -/
def engNbr : Engine := ⟨30, 0, none, 0, [((2, 3), ⟨0, 0, 0, 30⟩)], [], []⟩

/-- Engine with one pending data-table entry for key `(3, 2, 7)`. -/
def engPend : Engine :=
  ⟨30, 0, none, 0, [], [], [((3, 2, 7), ⟨some [0, 1, 3, 7, 1, 0, 4], 10, 20, true, 1⟩)]⟩

/-- Engine whose data-table entry for `(3, 2, 7)` is already cancelled. -/
def engCancelled : Engine :=
  ⟨30, 0, none, 0, [], [], [((3, 2, 7), ⟨none, 10, 0, false, 1⟩)]⟩

/-- Trace refuting C3 as stated: the data packet `(src 3, sink 0, seq 7)` is
received, forwarded at t = 5, aged out of all tables at t = 130, then
received again at t = 131 after the gradient is re-learnt, and forwarded a
second time at t = 136. -/
def evsTwoFwd : List Event :=
  [Event.rfIn 0 (RMsg.ok (some ⟨none⟩) [1, 2, 0, 0, 0]) 0,
   Event.rfIn 0 (RMsg.ok (some ⟨none⟩) [0, 2, 3, 7, 0, 0, 9]) 0,
   Event.tick 5 0,
   Event.tick 130 0,
   Event.rfIn 131 (RMsg.ok (some ⟨none⟩) [1, 2, 0, 1, 0]) 0,
   Event.rfIn 131 (RMsg.ok (some ⟨none⟩) [0, 2, 3, 7, 0, 0, 9]) 0,
   Event.tick 136 0]

/-- Prefix of `evsTwoFwd` during which the entry is never aged out. -/
def evsOneFwd : List Event :=
  [Event.rfIn 0 (RMsg.ok (some ⟨none⟩) [1, 2, 0, 0, 0]) 0,
   Event.rfIn 0 (RMsg.ok (some ⟨none⟩) [0, 2, 3, 7, 0, 0, 9]) 0,
   Event.tick 5 0]

/-! ### Association-list lemmas -/

theorem alLookup_nil {K V : Type} [DecidableEq K] (k : K) :
    alLookup ([] : List (K × V)) k = none := rfl

theorem alLookup_cons {K V : Type} [DecidableEq K]
    (k₀ k : K) (v₀ : V) (t : List (K × V)) :
    alLookup ((k₀, v₀) :: t) k = if k₀ = k then some v₀ else alLookup t k := rfl

theorem alUpdate_nil {K V : Type} [DecidableEq K] (k : K) (v : V) :
    alUpdate k v ([] : List (K × V)) = [(k, v)] := rfl

theorem alUpdate_cons {K V : Type} [DecidableEq K]
    (k₀ k : K) (v₀ v : V) (t : List (K × V)) :
    alUpdate k v ((k₀, v₀) :: t) =
      if k₀ = k then (k, v) :: t else (k₀, v₀) :: alUpdate k v t := rfl

theorem alUpdate_ne_nil {K V : Type} [DecidableEq K] (k : K) (v : V) (l : List (K × V)) :
    alUpdate k v l ≠ [] := by
  cases l with
  | nil => simp [alUpdate_nil]
  | cons p t =>
    obtain ⟨k', v'⟩ := p
    rw [alUpdate_cons]
    split <;> simp

theorem alLookup_alUpdate_self {K V : Type} [DecidableEq K]
    (l : List (K × V)) (k : K) (v : V) :
    alLookup (alUpdate k v l) k = some v := by
  induction l with
  | nil => simp [alUpdate_nil, alLookup_cons]
  | cons p t ih =>
    obtain ⟨k', v'⟩ := p
    by_cases h : k' = k
    · simp [alUpdate_cons, h, alLookup_cons]
    · simp [alUpdate_cons, h, alLookup_cons, ih]

theorem alLookup_alUpdate_ne {K V : Type} [DecidableEq K]
    (l : List (K × V)) (k k' : K) (v : V) (h : k' ≠ k) :
    alLookup (alUpdate k v l) k' = alLookup l k' := by
  have h' : k ≠ k' := Ne.symm h
  induction l with
  | nil => simp [alUpdate_nil, alLookup_cons, alLookup_nil, h']
  | cons p t ih =>
    obtain ⟨k₀, v₀⟩ := p
    by_cases h0 : k₀ = k
    · subst h0
      simp [alUpdate_cons, alLookup_cons, h']
    · simp [alUpdate_cons, h0, alLookup_cons, ih]

theorem alUpdate_self_id {K V : Type} [DecidableEq K]
    (l : List (K × V)) (k : K) (v : V) (h : alLookup l k = some v) :
    alUpdate k v l = l := by
  induction l with
  | nil => simp [alLookup_nil] at h
  | cons p t ih =>
    obtain ⟨k₀, v₀⟩ := p
    by_cases h0 : k₀ = k
    · subst h0
      rw [alLookup_cons, if_pos rfl] at h
      obtain rfl : v₀ = v := Option.some.inj h
      rw [alUpdate_cons, if_pos rfl]
    · rw [alLookup_cons, if_neg h0] at h
      rw [alUpdate_cons, if_neg h0, ih h]

theorem mem_alUpdate {K V : Type} [DecidableEq K]
    {l : List (K × V)} {k : K} {v : V} {p : K × V} (h : p ∈ alUpdate k v l) :
    p = (k, v) ∨ p ∈ l := by
  induction l with
  | nil => simpa [alUpdate_nil] using h
  | cons q t ih =>
    obtain ⟨k₀, v₀⟩ := q
    by_cases h0 : k₀ = k
    · rw [alUpdate_cons, if_pos h0] at h
      rcases List.mem_cons.mp h with h | h
      · exact Or.inl h
      · exact Or.inr (List.mem_cons_of_mem _ h)
    · rw [alUpdate_cons, if_neg h0] at h
      rcases List.mem_cons.mp h with h | h
      · exact Or.inr (h ▸ List.mem_cons_self _ _)
      · rcases ih h with h' | h'
        · exact Or.inl h'
        · exact Or.inr (List.mem_cons_of_mem _ h')

theorem alLookup_mem {K V : Type} [DecidableEq K]
    {l : List (K × V)} {k : K} {v : V} (h : alLookup l k = some v) :
    (k, v) ∈ l := by
  induction l with
  | nil => simp [alLookup_nil] at h
  | cons q t ih =>
    obtain ⟨k₀, v₀⟩ := q
    by_cases h0 : k₀ = k
    · subst h0
      rw [alLookup_cons, if_pos rfl] at h
      obtain rfl : v₀ = v := Option.some.inj h
      exact List.mem_cons_self _ _
    · rw [alLookup_cons, if_neg h0] at h
      exact List.mem_cons_of_mem _ (ih h)

theorem mem_keys_alUpdate {K V : Type} [DecidableEq K]
    {l : List (K × V)} {k k' : K} {v : V}
    (h : k' ∈ (alUpdate k v l).map Prod.fst) :
    k' = k ∨ k' ∈ l.map Prod.fst := by
  induction l with
  | nil =>
    rw [alUpdate_nil] at h
    simp only [List.map_cons, List.map_nil, List.mem_singleton] at h
    exact Or.inl h
  | cons q t ih =>
    obtain ⟨k₀, v₀⟩ := q
    by_cases h0 : k₀ = k
    · subst h0
      rw [alUpdate_cons, if_pos rfl, List.map_cons] at h
      rcases List.mem_cons.mp h with h | h
      · exact Or.inl h
      · exact Or.inr (by rw [List.map_cons]; exact List.mem_cons_of_mem _ h)
    · rw [alUpdate_cons, if_neg h0, List.map_cons] at h
      rcases List.mem_cons.mp h with h | h
      · exact Or.inr (by rw [List.map_cons]; exact h ▸ List.mem_cons_self _ _)
      · rcases ih h with h' | h'
        · exact Or.inl h'
        · exact Or.inr (by rw [List.map_cons]; exact List.mem_cons_of_mem _ h')

theorem nodupKeys_alUpdate {K V : Type} [DecidableEq K]
    {l : List (K × V)} {k : K} {v : V} (h : NodupKeys l) :
    NodupKeys (alUpdate k v l) := by
  induction l with
  | nil => simp [alUpdate_nil, NodupKeys]
  | cons q t ih =>
    obtain ⟨k₀, v₀⟩ := q
    simp only [NodupKeys, List.map_cons, List.nodup_cons] at h
    by_cases h0 : k₀ = k
    · subst h0
      rw [alUpdate_cons, if_pos rfl]
      simpa [NodupKeys] using h
    · have ht := ih h.2
      rw [alUpdate_cons, if_neg h0]
      simp only [NodupKeys, List.map_cons, List.nodup_cons]
      refine ⟨fun hmem => ?_, ht⟩
      rcases mem_keys_alUpdate hmem with h' | h'
      · exact h0 h'
      · exact h.1 h'

theorem nodupKeys_filter {K V : Type} [DecidableEq K]
    {l : List (K × V)} (p : K × V → Bool) (h : NodupKeys l) :
    NodupKeys (l.filter p) :=
  List.Nodup.sublist (List.Sublist.map Prod.fst (List.filter_sublist l)) h

theorem alLookup_filter_eq {K V : Type} [DecidableEq K]
    {l : List (K × V)} (p : K × V → Bool) (hn : NodupKeys l)
    {k : K} {v : V} (h : alLookup (l.filter p) k = some v) :
    alLookup l k = some v := by
  induction l with
  | nil => simp [alLookup_nil] at h
  | cons q t ih =>
    obtain ⟨k₀, v₀⟩ := q
    simp only [NodupKeys, List.map_cons, List.nodup_cons] at hn
    by_cases hp : p (k₀, v₀)
    · rw [List.filter_cons_of_pos hp] at h
      by_cases h0 : k₀ = k
      · subst h0
        rw [alLookup_cons, if_pos rfl] at h ⊢
        exact h
      · rw [alLookup_cons, if_neg h0] at h ⊢
        exact ih hn.2 h
    · rw [List.filter_cons_of_neg hp] at h
      by_cases h0 : k₀ = k
      · subst h0
        exact absurd
          (List.mem_map_of_mem Prod.fst (List.mem_of_mem_filter (alLookup_mem h)))
          hn.1
      · rw [alLookup_cons, if_neg h0]
        exact ih hn.2 h

/-! ### Effect lemmas for the sink-packet handler -/

theorem min_addr_ne_none {l : List (SNKey × SinkNeighborVal)} (h : l ≠ []) :
    minium_addr_in_sink_neighbor_table l ≠ none := by
  cases l with
  | nil => exact absurd rfl h
  | cons a t => simp [minium_addr_in_sink_neighbor_table, List.min?]

theorem sinkTableUpdate_err (e : Engine) (now : Time) (b : List Nat) :
    (sinkTableUpdate e now b).err = none := by
  unfold sinkTableUpdate
  split <;> rfl

theorem sinkTableUpdate_outs (e : Engine) (now : Time) (b : List Nat) :
    (sinkTableUpdate e now b).outs = [] := by
  unfold sinkTableUpdate
  split <;> rfl

theorem sinkTableUpdate_dataTable (e : Engine) (now : Time) (b : List Nat) :
    (sinkTableUpdate e now b).eng.dataPacketTable = e.dataPacketTable := by
  unfold sinkTableUpdate
  split <;> rfl

theorem sinkArbitrate_outs (c : Cfg) (e : Engine) (now : Time) (b : List Nat) :
    (sinkArbitrate c e now b).outs = [] := by
  unfold sinkArbitrate
  split
  · rfl
  · split
    · rfl
    · split <;> exact sinkTableUpdate_outs _ _ _

theorem sinkArbitrate_dataTable (c : Cfg) (e : Engine) (now : Time) (b : List Nat) :
    (sinkArbitrate c e now b).eng.dataPacketTable = e.dataPacketTable := by
  unfold sinkArbitrate
  split
  · rfl
  · split
    · rfl
    · split <;> exact sinkTableUpdate_dataTable _ _ _

theorem sinkArbitrate_err (c : Cfg) (e : Engine) (now : Time) (b : List Nat)
    (hne : e.sinkNeighborTable ≠ [])
    (hkey : alLookup e.sinkNeighborTable (b.getD 1 0, b.getD 2 0) ≠ none) :
    (sinkArbitrate c e now b).err = none := by
  unfold sinkArbitrate
  split
  · next heq => exact absurd heq (min_addr_ne_none hne)
  · next m heq =>
    split
    · next heq2 => exact absurd heq2 hkey
    · next snv heq2 => split <;> exact sinkTableUpdate_err _ _ _

theorem handle_sink_packet_core_err (c : Cfg) (e : Engine) (now : Time)
    (b : List Nat) (nbi : ℚ) :
    (handle_sink_packet_core c e now b nbi).err = none := by
  unfold handle_sink_packet_core
  exact sinkArbitrate_err _ _ _ _ (alUpdate_ne_nil _ _ _)
    (by rw [alLookup_alUpdate_self]; simp)

theorem handle_sink_packet_core_outs (c : Cfg) (e : Engine) (now : Time)
    (b : List Nat) (nbi : ℚ) :
    (handle_sink_packet_core c e now b nbi).outs = [] := by
  unfold handle_sink_packet_core
  exact sinkArbitrate_outs _ _ _ _

theorem handle_sink_packet_core_dataTable (c : Cfg) (e : Engine) (now : Time)
    (b : List Nat) (nbi : ℚ) :
    (handle_sink_packet_core c e now b nbi).eng.dataPacketTable = e.dataPacketTable := by
  unfold handle_sink_packet_core
  exact sinkArbitrate_dataTable _ _ _ _

theorem handle_sink_packet_outs (c : Cfg) (e : Engine) (now : Time) (b : List Nat) :
    (handle_sink_packet c e now b).outs = [] := by
  unfold handle_sink_packet
  split
  · exact handle_sink_packet_core_outs _ _ _ _ _
  · exact handle_sink_packet_core_outs _ _ _ _ _
  · rfl
  · rfl

theorem handle_sink_packet_dataTable (c : Cfg) (e : Engine) (now : Time) (b : List Nat) :
    (handle_sink_packet c e now b).eng.dataPacketTable = e.dataPacketTable := by
  unfold handle_sink_packet
  split
  · exact handle_sink_packet_core_dataTable _ _ _ _ _
  · exact handle_sink_packet_core_dataTable _ _ _ _ _
  · rfl
  · rfl

/-! ### Dispatch lemma for valid NOTI frames -/

theorem radio_rx_noti_dispatch (c : Cfg) (e : Engine) (now rnd : Time)
    (meta : Meta) (sndr src sn : Nat)
    (hcrc : meta.crc_ok ≠ some false)
    (hsndr : sndr ≠ c.addr) (hsrc : src ≠ c.addr) :
    radio_rx c e now rnd (RMsg.ok (some meta) [2, sndr, src, sn]) =
      handle_receive_notification e [2, sndr, src, sn] := by
  have hcrc' : meta.crc_ok.getD true = true := by
    cases hc : meta.crc_ok with
    | none => rfl
    | some b =>
      cases b
      · exact absurd hc hcrc
      · rfl
  simp [radio_rx, hcrc', hsndr, hsrc, List.getD]

/-! ### Claim theorems -/

/-- C10 (confirmed): whenever `handle_sink_packet` reaches the
broadcast-interval arbitration, the sink-neighbor entry for the packet just
received has already been inserted, so `min` over the key list is defined
and the handler can never fail with the empty-table `ValueError` (the only
exception it can raise is the `NameError` of the `nbi` debug slip). -/
theorem c10_sink_neighbor_min_never_empty (c : Cfg) (e : Engine) (now : Time)
    (b : List Nat) :
    (handle_sink_packet c e now b).err = none ∨
    (handle_sink_packet c e now b).err = some Err.nameError := by
  unfold handle_sink_packet
  split
  · exact Or.inl (handle_sink_packet_core_err _ _ _ _ _)
  · exact Or.inl (handle_sink_packet_core_err _ _ _ _ _)
  · exact Or.inr rfl
  · exact Or.inr rfl

/-- C1 (code bug): on a non-sink node whose sink table holds a scheduled
entry whose forwarding time has been reached, the tick handler does emit the
sink packet `[SINK, self, key, highest_seq, min_hops]`, but the stored entry
is NOT rewritten: the source builds the updated record and never assigns it
back, so the entry keeps `scheduled = true`, `forwarding_time = 12` and
`min_dx_to_sink = 2` instead of the claimed `false` / `0` /
`tentative + 1 = 1`. -/
theorem c1_tick_emits_but_does_not_rewrite_entry :
    (step cfgDbg engSched (Event.tick 12 0)).outs = [Out.sinkPkt [1, 1, 0, 4, 2]] ∧
    alLookup (step cfgDbg engSched (Event.tick 12 0)).eng.sinkTable 0 =
      some ⟨4, 2, 10, 12, true, 0⟩ := by
  with_unfolding_all decide

/-- C2 (code bug): with `debug = false` (the constructor default) a valid
SINK packet whose `(sender, source)` key is already in the sink-neighbor
table makes `handle_sink_packet` raise `NameError` (`nbi` is assigned only
under the debug branches), so the EMA overwrite does not happen and the
handler raises — the update is not independent of the debug setting. -/
theorem c2_sink_packet_raises_nameerror_without_debug :
    step cfgNoDbg engNbr (Event.rfIn 3 (RMsg.ok (some ⟨none⟩) [1, 2, 3, 4, 0]) 0) =
      ⟨engNbr, [], some Err.nameError⟩ := by
  with_unfolding_all decide

/-- C4 (code bug): a PDU whose data is an empty unsigned-byte vector passes
the CRC check and then raises `IndexError` at the ProtoId read (`data[0]`,
source line 439), escaping the handler with no state change — contradicting
the claim that every malformed ingress returns without raising. -/
theorem c4_empty_frame_raises_indexerror :
    step cfgNoDbg engFresh (Event.rfIn 0 (RMsg.ok (some ⟨none⟩) []) 0) =
      ⟨engFresh, [], some Err.indexError⟩ := by
  with_unfolding_all decide

/-- C5 counterexample: on a node with no gradient toward its sink, a valid
application payload is dropped with no emission, yet `pkt_cnt` still
advances from 0 to 1 — refuting "pkt_cnt is incremented only after an
actual emission, never on a drop". -/
theorem c5_counterexample_pkt_cnt_incremented_on_drop :
    (step cfgNoDbg engFresh (Event.appIn (AMsg.ok (some ⟨none⟩) [9, 9]))).outs = [] ∧
    engFresh.pkt_cnt = 0 ∧
    (step cfgNoDbg engFresh (Event.appIn (AMsg.ok (some ⟨none⟩) [9, 9]))).eng.pkt_cnt
      = 1 := by
  with_unfolding_all decide

/-- C5 (corrected): an application ingress with no gradient toward the
configured sink emits nothing, raises nothing and leaves all three tables
unchanged, but `pkt_cnt` is still incremented mod 256 — the counter
advances on every structurally valid app ingress, dropped or not. -/
theorem c5_amended_drop_emits_nothing_but_counts (c : Cfg) (e : Engine)
    (meta : Option Meta) (payload : List Nat)
    (h : alLookup e.sinkTable c.SINK_ADDR = none) :
    (step c e (Event.appIn (AMsg.ok meta payload))).outs = [] ∧
    (step c e (Event.appIn (AMsg.ok meta payload))).err = none ∧
    (step c e (Event.appIn (AMsg.ok meta payload))).eng.sinkTable = e.sinkTable ∧
    (step c e (Event.appIn (AMsg.ok meta payload))).eng.sinkNeighborTable =
      e.sinkNeighborTable ∧
    (step c e (Event.appIn (AMsg.ok meta payload))).eng.dataPacketTable =
      e.dataPacketTable ∧
    (step c e (Event.appIn (AMsg.ok meta payload))).eng.pkt_cnt =
      (e.pkt_cnt + 1) % 256 := by
  simp [step, app_rx, send_pkt_radio, h]

/-- Witness for C5's amended theorem at a concrete fresh node. -/
theorem c5_amended_witness :
    (step cfgNoDbg engFresh (Event.appIn (AMsg.ok (some ⟨none⟩) [9, 9]))).outs = [] ∧
    (step cfgNoDbg engFresh (Event.appIn (AMsg.ok (some ⟨none⟩) [9, 9]))).eng.pkt_cnt =
      (engFresh.pkt_cnt + 1) % 256 :=
  ⟨(c5_amended_drop_emits_nothing_but_counts cfgNoDbg engFresh (some ⟨none⟩) [9, 9]
      rfl).1,
   (c5_amended_drop_emits_nothing_but_counts cfgNoDbg engFresh (some ⟨none⟩) [9, 9]
      rfl).2.2.2.2.2⟩

/-- C7 (confirmed): a valid NOTI whose key `(Source, Sender, SeqNum)`
matches a data-table entry rewrites exactly that entry to
`(pending_bytes = none, last_heard unchanged, forwarding_time = 0,
scheduled = false, duplicates unchanged)`, emits nothing, raises nothing,
and leaves every other entry and the other two tables (and all counters,
visible in the result record) unchanged. -/
theorem c7_noti_cancels_pending_entry (c : Cfg) (e : Engine) (now rnd : Time)
    (meta : Meta) (sndr src sn : Nat) (v : DataPktVal)
    (hcrc : meta.crc_ok ≠ some false)
    (hsndr : sndr ≠ c.addr) (hsrc : src ≠ c.addr)
    (hv : alLookup e.dataPacketTable (src, sndr, sn) = some v) :
    radio_rx c e now rnd (RMsg.ok (some meta) [2, sndr, src, sn]) =
      ⟨{ e with dataPacketTable :=
           (alUpdate (src, sndr, sn) ⟨none, v.last_time_heard, 0, false, v.duplicates⟩
             e.dataPacketTable) },
       [], none⟩ ∧
    alLookup (alUpdate (src, sndr, sn)
        ⟨none, v.last_time_heard, 0, false, v.duplicates⟩ e.dataPacketTable)
      (src, sndr, sn) = some ⟨none, v.last_time_heard, 0, false, v.duplicates⟩ ∧
    ∀ k' : DKey, k' ≠ (src, sndr, sn) →
      alLookup (alUpdate (src, sndr, sn)
          ⟨none, v.last_time_heard, 0, false, v.duplicates⟩ e.dataPacketTable) k' =
        alLookup e.dataPacketTable k' := by
  refine ⟨?_, alLookup_alUpdate_self _ _ _,
    fun k' hk => alLookup_alUpdate_ne _ _ _ _ hk⟩
  rw [radio_rx_noti_dispatch c e now rnd meta sndr src sn hcrc hsndr hsrc]
  simp [handle_receive_notification, hv, List.getD]

/-- Witness for C7 at a concrete pending entry. -/
theorem c7_witness :
    radio_rx cfgDbg engPend 30 0 (RMsg.ok (some ⟨none⟩) [2, 2, 3, 7]) =
      ⟨{ engPend with dataPacketTable :=
           (alUpdate (3, 2, 7) ⟨none, 10, 0, false, 1⟩ engPend.dataPacketTable) },
       [], none⟩ :=
  (c7_noti_cancels_pending_entry cfgDbg engPend 30 0 ⟨none⟩ 2 3 7
    ⟨some [0, 1, 3, 7, 1, 0, 4], 10, 20, true, 1⟩
    (by simp) (by decide) (by decide) rfl).1

/-- C8 (confirmed): a valid DATA packet whose DestSink byte equals the
node's own address makes the handler emit the receive notification
`[NOTI, self, src, seq]` on the radio port and deliver exactly the bytes
past the 7-byte header to the application port together with the packet's
original metadata, with no state change and no exception. -/
theorem c8_final_destination_delivery (c : Cfg) (e : Engine) (now rnd : Time)
    (meta : Meta) (sndr src sn hc ttl : Nat) (payload : List Nat)
    (hcrc : meta.crc_ok ≠ some false)
    (hsndr : sndr ≠ c.addr) (hsrc : src ≠ c.addr) :
    radio_rx c e now rnd
        (RMsg.ok (some meta) (0 :: sndr :: src :: sn :: hc :: c.addr :: ttl :: payload)) =
      ⟨e, [Out.notiPkt [2, c.addr, src, sn], Out.toApp meta payload], none⟩ := by
  have hcrc' : meta.crc_ok.getD true = true := by
    cases hc2 : meta.crc_ok with
    | none => rfl
    | some b =>
      cases b
      · exact absurd hc2 hcrc
      · rfl
  have hlen : ¬((0 :: sndr :: src :: sn :: hc :: c.addr :: ttl :: payload).length < 7) := by
    simp only [List.length_cons]
    omega
  simp [radio_rx, handle_data_packet, hcrc', hlen, hsndr, hsrc, List.getD]

/-- Witness for C8 at a concrete frame with a two-byte payload. -/
theorem c8_witness :
    radio_rx cfgDbg engFresh 0 0
        (RMsg.ok (some ⟨none⟩) (0 :: 2 :: 3 :: 9 :: 1 :: cfgDbg.addr :: 4 :: [222, 173])) =
      ⟨engFresh, [Out.notiPkt [2, cfgDbg.addr, 3, 9], Out.toApp ⟨none⟩ [222, 173]],
       none⟩ :=
  c8_final_destination_delivery cfgDbg engFresh 0 0 ⟨none⟩ 2 3 9 1 4 [222, 173]
    (by simp) (by decide) (by decide)

/-- C9 (confirmed): replaying a NOTI that matches an already-cancelled
entry (`pending_bytes = none`, `forwarding_time = 0`, `scheduled = false`)
rewrites the entry with the very same value, so the engine state is exactly
unchanged and nothing is emitted or raised — the cancellation is
idempotent. -/
theorem c9_noti_replay_idempotent (c : Cfg) (e : Engine) (now rnd : Time)
    (meta : Meta) (sndr src sn : Nat) (lh : Time) (dup : Nat)
    (hcrc : meta.crc_ok ≠ some false)
    (hsndr : sndr ≠ c.addr) (hsrc : src ≠ c.addr)
    (hv : alLookup e.dataPacketTable (src, sndr, sn) = some ⟨none, lh, 0, false, dup⟩) :
    radio_rx c e now rnd (RMsg.ok (some meta) [2, sndr, src, sn]) = ⟨e, [], none⟩ := by
  rw [radio_rx_noti_dispatch c e now rnd meta sndr src sn hcrc hsndr hsrc]
  unfold handle_receive_notification
  simp only [List.getD, List.get?, Option.getD_some]
  rw [hv]
  simp only
  rw [alUpdate_self_id _ _ _ hv]

/-- Witness for C9 at a concrete cancelled entry. -/
theorem c9_witness :
    radio_rx cfgDbg engCancelled 30 0 (RMsg.ok (some ⟨none⟩) [2, 2, 3, 7]) =
      ⟨engCancelled, [], none⟩ :=
  c9_noti_replay_idempotent cfgDbg engCancelled 30 0 ⟨none⟩ 2 3 7 10 1
    (by simp) (by decide) (by decide) rfl

/-- C3 counterexample: the same data key `(3, 0, 7)` is forwarded twice by
one node — once at t = 5, then, after the entry ages out of the data table
at t = 130 and the packet is received again, a second time at t = 136. -/
theorem c3_counterexample_two_forwards :
    countFwd (3, 0, 7) (run cfgDbg engFresh evsTwoFwd).2 = 2 := by
  with_unfolding_all decide

/-- C6 counterexample: with `Ndupl = 0` the creation path still stores
`scheduled = true, duplicates = 0`, violating `scheduled → duplicates <
Ndupl`. -/
theorem c6_counterexample_ndupl_zero :
    alLookup (step cfgN0 engGrad
        (Event.rfIn 0 (RMsg.ok (some ⟨none⟩) [0, 2, 3, 7, 0, 0, 5]) 0)).eng.dataPacketTable
      (3, 0, 7) = some ⟨some [0, 1, 3, 7, 1, 0, 4], 0, 5, true, 0⟩ ∧
    cfgN0.Ndupl = 0 := by
  with_unfolding_all decide

/-! ### Preservation of the duplicate-suppression invariant (claim C6) -/

theorem dataInv_alUpdate {N : Nat} {t : List (DKey × DataPktVal)} {k : DKey}
    {v : DataPktVal} (h : dataInv N t)
    (hv : v.scheduled = true → v.duplicates < N) :
    dataInv N (alUpdate k v t) := by
  intro kv hm hs
  rcases mem_alUpdate hm with h' | h'
  · subst h'
    exact hv hs
  · exact h kv h' hs

theorem dataInv_filter {N : Nat} {t : List (DKey × DataPktVal)}
    (p : DKey × DataPktVal → Bool) (h : dataInv N t) :
    dataInv N (t.filter p) :=
  fun kv hm hs => h kv (List.mem_of_mem_filter hm) hs

theorem handle_data_packet_inv (c : Cfg) (e : Engine) (now rnd : Time)
    (b : List Nat) (meta : Meta) (hN : 1 ≤ c.Ndupl)
    (h : dataInv c.Ndupl e.dataPacketTable) :
    dataInv c.Ndupl (handle_data_packet c e now rnd b meta).eng.dataPacketTable := by
  unfold handle_data_packet
  split
  · exact h
  · split
    · exact h
    · split
      · exact h
      · split
        · exact dataInv_alUpdate h fun _ => hN
        · split
          · next v hv =>
            refine dataInv_alUpdate h fun hs => ?_
            simpa using of_decide_eq_true hs
          · exact h

theorem handle_receive_notification_inv (N : Nat) (e : Engine) (b : List Nat)
    (h : dataInv N e.dataPacketTable) :
    dataInv N (handle_receive_notification e b).eng.dataPacketTable := by
  unfold handle_receive_notification
  split
  · exact h
  · exact dataInv_alUpdate h (by simp)

theorem send_pkt_radio_eng (c : Cfg) (e : Engine) (payload : List Nat) (cnt : Nat) :
    (send_pkt_radio c e payload cnt).eng = e := by
  unfold send_pkt_radio
  split <;> rfl

theorem app_rx_dataTable (c : Cfg) (e : Engine) (m : AMsg) :
    (app_rx c e m).eng.dataPacketTable = e.dataPacketTable := by
  cases m with
  | notPair => rfl
  | nonU8 _ => rfl
  | ok meta payload =>
    show ({ (send_pkt_radio c e payload e.pkt_cnt).eng with
              pkt_cnt := ((send_pkt_radio c e payload e.pkt_cnt).eng.pkt_cnt + 1) % 256
          } : Engine).dataPacketTable = e.dataPacketTable
    rw [send_pkt_radio_eng]

theorem beaconPhase_dataTable (c : Cfg) (e : Engine) (now rb : Time) :
    (beaconPhase c e now rb).1.dataPacketTable = e.dataPacketTable := by
  unfold beaconPhase
  split <;> rfl

theorem sinkFwdLoop_dataTable (c : Cfg) (now : Time) :
    ∀ (l : List (Nat × SinkVal)) (e : Engine),
    (sinkFwdLoop c e now l).1.dataPacketTable = e.dataPacketTable := by
  intro l
  induction l with
  | nil => intro e; rfl
  | cons kv rest ih =>
    intro e
    obtain ⟨k, v⟩ := kv
    unfold sinkFwdLoop
    split
    · exact ih _
    · exact ih e

theorem ctrl_phase1_dataTable (c : Cfg) (e : Engine) (now rb : Time) :
    (ctrl_phase1 c e now rb).1.dataPacketTable = e.dataPacketTable := by
  unfold ctrl_phase1
  split
  · exact beaconPhase_dataTable _ _ _ _
  · exact sinkFwdLoop_dataTable _ _ _ _

theorem dataFwdLoop_inv (c : Cfg) (now : Time) :
    ∀ (l : List (DKey × DataPktVal)) (e : Engine),
    dataInv c.Ndupl e.dataPacketTable →
    dataInv c.Ndupl (dataFwdLoop c e now l).eng.dataPacketTable := by
  intro l
  induction l with
  | nil => intro e h; exact h
  | cons kv rest ih =>
    intro e h
    obtain ⟨k, v0⟩ := kv
    unfold dataFwdLoop
    split
    · exact h
    · next v hv =>
      split
      · split
        · exact h
        · exact ih _ (dataInv_alUpdate h (by simp))
      · exact ih e h

theorem ctrl_age_inv (c : Cfg) (e : Engine) (now : Time)
    (h : dataInv c.Ndupl e.dataPacketTable) :
    dataInv c.Ndupl (ctrl_age c e now).dataPacketTable :=
  dataInv_filter _ h

theorem ctrl_rx_inv (c : Cfg) (e : Engine) (now rb : Time)
    (h : dataInv c.Ndupl e.dataPacketTable) :
    dataInv c.Ndupl (ctrl_rx c e now rb).eng.dataPacketTable := by
  have h1 : dataInv c.Ndupl (ctrl_phase1 c e now rb).1.dataPacketTable := by
    rw [ctrl_phase1_dataTable]; exact h
  have h2 := dataFwdLoop_inv c now (ctrl_phase1 c e now rb).1.dataPacketTable
    (ctrl_phase1 c e now rb).1 h1
  unfold ctrl_rx ctrl_finish
  split
  · exact h2
  · exact ctrl_age_inv _ _ _ h2

/-- C6 (corrected): provided `Ndupl ≥ 1`, every engine operation — packet
receipt (creation, duplicate, NOTI), application ingress, or tick
(forwarding and aging) — preserves the invariant that every scheduled
data-table entry has `duplicates < Ndupl`; once `duplicates` reaches
`Ndupl` the entry is stored unscheduled.  (With `Ndupl = 0` the creation
path violates it, see the counterexample.) -/
theorem c6_amended_scheduled_implies_duplicates_lt (c : Cfg) (e : Engine)
    (ev : Event) (hN : 1 ≤ c.Ndupl) (h : dataInv c.Ndupl e.dataPacketTable) :
    dataInv c.Ndupl (step c e ev).eng.dataPacketTable := by
  cases ev with
  | appIn m =>
    show dataInv c.Ndupl (app_rx c e m).eng.dataPacketTable
    rw [app_rx_dataTable]; exact h
  | tick now rb => exact ctrl_rx_inv c e now rb h
  | rfIn now m rnd =>
    cases m with
    | notPair => exact h
    | nonU8 _ => exact h
    | ok meta? bytes =>
      show dataInv c.Ndupl (radio_rx c e now rnd (RMsg.ok meta? bytes)).eng.dataPacketTable
      simp only [radio_rx]
      split
      · exact h
      · split
        · exact h
        · split
          · exact h
          · split
            · exact h
            · split
              · exact h
              · split
                · rw [handle_sink_packet_dataTable]; exact h
                · split
                  · exact handle_data_packet_inv c e now rnd _ _ hN h
                  · exact handle_receive_notification_inv c.Ndupl e _ h

/-- Witness for C6's amended theorem: a node with `Ndupl = 2` receiving a
fresh data packet. -/
theorem c6_witness :
    dataInv cfgDbg.Ndupl
      (step cfgDbg engGrad
        (Event.rfIn 0 (RMsg.ok (some ⟨none⟩) [0, 2, 3, 7, 0, 0, 5]) 0)).eng.dataPacketTable :=
  c6_amended_scheduled_implies_duplicates_lt cfgDbg engGrad
    (Event.rfIn 0 (RMsg.ok (some ⟨none⟩) [0, 2, 3, 7, 0, 0, 5]) 0)
    (by decide) (by intro kv hm; simp [engGrad] at hm)

/-! ### At-most-once forwarding (claim C3): counting helpers -/

theorem countFwd_nil (k : DKey) : countFwd k [] = 0 := rfl

theorem countFwd_append (k : DKey) (l1 l2 : List Out) :
    countFwd k (l1 ++ l2) = countFwd k l1 + countFwd k l2 := by
  simp [countFwd, List.countP_append]

theorem countFwd_cons_ne (k : DKey) (o : Out) (l : List Out)
    (h : isFwdFor k o = false) : countFwd k (o :: l) = countFwd k l := by
  simp [countFwd, List.countP_cons, h]

theorem countFwd_cons_self (k : DKey) (d : List Nat) (l : List Out) :
    countFwd k (Out.fwdData k d :: l) = countFwd k l + 1 := by
  simp [countFwd, List.countP_cons, isFwdFor]

theorem isFwdFor_sinkPkt (k : DKey) (b : List Nat) :
    isFwdFor k (Out.sinkPkt b) = false := rfl

theorem isFwdFor_fwdData_ne (k q : DKey) (d : List Nat) (h : q ≠ k) :
    isFwdFor k (Out.fwdData q d) = false := by
  simp [isFwdFor, h]

/-! ### Spent entries: the pending bytes have been emptied -/

theorem spentT_lookup_ne_none {t : List (DKey × DataPktVal)} {k : DKey}
    (h : spentT t k) : alLookup t k ≠ none := by
  obtain ⟨w, hw, _⟩ := h
  rw [hw]
  exact fun hh => Option.noConfusion hh

theorem spentT_alUpdate_other {t : List (DKey × DataPktVal)} {k k' : DKey}
    {v : DataPktVal} (hne : k ≠ k') (h : spentT t k) :
    spentT (alUpdate k' v t) k := by
  obtain ⟨w, hw, hwd⟩ := h
  exact ⟨w, by rw [alLookup_alUpdate_ne _ _ _ _ hne]; exact hw, hwd⟩

theorem spentT_alUpdate_none (t : List (DKey × DataPktVal)) (k : DKey)
    (lh ft : Time) (sch : Bool) (dup : Nat) :
    spentT (alUpdate k ⟨none, lh, ft, sch, dup⟩ t) k :=
  ⟨_, alLookup_alUpdate_self _ _ _, rfl⟩

/-! ### No handler except the tick data loop emits a data forward -/

theorem handle_data_packet_outs_count (c : Cfg) (e : Engine) (now rnd : Time)
    (b : List Nat) (meta : Meta) (k : DKey) :
    countFwd k (handle_data_packet c e now rnd b meta).outs = 0 := by
  unfold handle_data_packet
  split
  · rfl
  · split
    · rfl
    · split
      · rfl
      · split
        · rfl
        · split
          · rfl
          · rfl

theorem handle_receive_notification_outs (e : Engine) (b : List Nat) :
    (handle_receive_notification e b).outs = [] := by
  unfold handle_receive_notification
  split <;> rfl

theorem app_rx_outs_count (c : Cfg) (e : Engine) (m : AMsg) (k : DKey) :
    countFwd k (app_rx c e m).outs = 0 := by
  cases m with
  | notPair => rfl
  | nonU8 _ => rfl
  | ok meta payload =>
    show countFwd k (send_pkt_radio c e payload e.pkt_cnt).outs = 0
    unfold send_pkt_radio
    split <;> rfl

theorem beaconPhase_outs_count (c : Cfg) (e : Engine) (now rb : Time) (k : DKey) :
    countFwd k (beaconPhase c e now rb).2 = 0 := by
  unfold beaconPhase
  split <;> rfl

theorem sinkFwdLoop_outs_count (c : Cfg) (now : Time) (k : DKey) :
    ∀ (l : List (Nat × SinkVal)) (e : Engine),
    countFwd k (sinkFwdLoop c e now l).2 = 0 := by
  intro l
  induction l with
  | nil => intro e; rfl
  | cons kv rest ih =>
    intro e
    obtain ⟨k0, v⟩ := kv
    unfold sinkFwdLoop
    split
    · rw [countFwd_cons_ne _ _ _ (isFwdFor_sinkPkt _ _)]
      exact ih _
    · exact ih e

theorem ctrl_phase1_outs_count (c : Cfg) (e : Engine) (now rb : Time) (k : DKey) :
    countFwd k (ctrl_phase1 c e now rb).2 = 0 := by
  unfold ctrl_phase1
  split
  · exact beaconPhase_outs_count _ _ _ _ _
  · exact sinkFwdLoop_outs_count _ _ _ _ _

theorem ctrl_finish_outs (c : Cfg) (now : Time) (outs1 : List Out) (r : Res) :
    (ctrl_finish c now outs1 r).outs = outs1 ++ r.outs := by
  unfold ctrl_finish
  split <;> rfl

/-! ### Spent entries survive each handler -/

theorem handle_data_packet_spent (c : Cfg) (e : Engine) (now rnd : Time)
    (b : List Nat) (meta : Meta) (k : DKey)
    (h : spentT e.dataPacketTable k) :
    spentT (handle_data_packet c e now rnd b meta).eng.dataPacketTable k := by
  unfold handle_data_packet
  split
  · exact h
  · split
    · exact h
    · split
      · exact h
      · split
        · next hnone =>
          have hne : k ≠ (b.getD 2 0, b.getD 5 0, b.getD 3 0) := by
            intro he
            rw [← he] at hnone
            exact spentT_lookup_ne_none h hnone
          exact spentT_alUpdate_other hne h
        · next v hv =>
          split
          · by_cases he : k = (b.getD 2 0, b.getD 5 0, b.getD 3 0)
            · obtain ⟨w, hw, hwd⟩ := h
              rw [he, hv] at hw
              obtain rfl : v = w := Option.some.inj hw
              rw [he]
              exact ⟨_, alLookup_alUpdate_self _ _ _, hwd⟩
            · exact spentT_alUpdate_other he h
          · exact h

theorem handle_receive_notification_spent (e : Engine) (b : List Nat) (k : DKey)
    (h : spentT e.dataPacketTable k) :
    spentT (handle_receive_notification e b).eng.dataPacketTable k := by
  unfold handle_receive_notification
  split
  · exact h
  · next v hv =>
    by_cases he : k = (b.getD 2 0, b.getD 1 0, b.getD 3 0)
    · rw [he]
      exact spentT_alUpdate_none _ _ _ _ _ _
    · exact spentT_alUpdate_other he h

/-! ### Key distinctness is preserved by every handler -/

theorem handle_data_packet_nodup (c : Cfg) (e : Engine) (now rnd : Time)
    (b : List Nat) (meta : Meta) (h : NodupKeys e.dataPacketTable) :
    NodupKeys (handle_data_packet c e now rnd b meta).eng.dataPacketTable := by
  unfold handle_data_packet
  split
  · exact h
  · split
    · exact h
    · split
      · exact h
      · split
        · exact nodupKeys_alUpdate h
        · split
          · exact nodupKeys_alUpdate h
          · exact h

theorem handle_receive_notification_nodup (e : Engine) (b : List Nat)
    (h : NodupKeys e.dataPacketTable) :
    NodupKeys (handle_receive_notification e b).eng.dataPacketTable := by
  unfold handle_receive_notification
  split
  · exact h
  · exact nodupKeys_alUpdate h

theorem dataFwdLoop_nodup (c : Cfg) (now : Time) :
    ∀ (l : List (DKey × DataPktVal)) (e : Engine),
    NodupKeys e.dataPacketTable →
    NodupKeys (dataFwdLoop c e now l).eng.dataPacketTable := by
  intro l
  induction l with
  | nil => intro e h; exact h
  | cons kv rest ih =>
    intro e h
    obtain ⟨k0, v0⟩ := kv
    unfold dataFwdLoop
    split
    · exact h
    · split
      · split
        · exact h
        · exact ih _ (nodupKeys_alUpdate h)
      · exact ih e h

theorem step_nodup (c : Cfg) (e : Engine) (ev : Event)
    (h : NodupKeys e.dataPacketTable) :
    NodupKeys (step c e ev).eng.dataPacketTable := by
  cases ev with
  | appIn m =>
    show NodupKeys (app_rx c e m).eng.dataPacketTable
    rw [app_rx_dataTable]; exact h
  | tick now rb =>
    have h1 : NodupKeys (ctrl_phase1 c e now rb).1.dataPacketTable := by
      rw [ctrl_phase1_dataTable]; exact h
    have h2 := dataFwdLoop_nodup c now (ctrl_phase1 c e now rb).1.dataPacketTable
      (ctrl_phase1 c e now rb).1 h1
    show NodupKeys (ctrl_rx c e now rb).eng.dataPacketTable
    unfold ctrl_rx ctrl_finish
    split
    · exact h2
    · exact nodupKeys_filter _ h2
  | rfIn now m rnd =>
    cases m with
    | notPair => exact h
    | nonU8 _ => exact h
    | ok meta? bytes =>
      show NodupKeys (radio_rx c e now rnd (RMsg.ok meta? bytes)).eng.dataPacketTable
      simp only [radio_rx]
      split
      · exact h
      · split
        · exact h
        · split
          · exact h
          · split
            · exact h
            · split
              · exact h
              · split
                · rw [handle_sink_packet_dataTable]; exact h
                · split
                  · exact handle_data_packet_nodup c e now rnd _ _ h
                  · exact handle_receive_notification_nodup e _ h

/-! ### The data-forwarding loop emits at most one forward per key -/

theorem dataFwdLoop_absent (c : Cfg) (now : Time) (k : DKey) :
    ∀ (l : List (DKey × DataPktVal)) (e : Engine),
    alLookup e.dataPacketTable k = none →
    countFwd k (dataFwdLoop c e now l).outs = 0 ∧
    alLookup (dataFwdLoop c e now l).eng.dataPacketTable k = none := by
  intro l
  induction l with
  | nil => intro e h; exact ⟨rfl, h⟩
  | cons kv rest ih =>
    intro e h
    obtain ⟨k0, v0⟩ := kv
    unfold dataFwdLoop
    split
    · exact ⟨rfl, h⟩
    · next v hv =>
      split
      · split
        · exact ⟨rfl, h⟩
        · next d hd =>
          have hne : k ≠ k0 := by
            intro he
            rw [he, hv] at h
            exact Option.noConfusion h
          have h' : alLookup
              (alUpdate k0 ⟨none, v.last_time_heard, 0, false, v.duplicates⟩
                e.dataPacketTable) k = none := by
            rw [alLookup_alUpdate_ne _ _ _ _ hne]
            exact h
          obtain ⟨hc, hl⟩ := ih
            ({ e with dataPacketTable :=
                (alUpdate k0 ⟨none, v.last_time_heard, 0, false, v.duplicates⟩
                  e.dataPacketTable) }) h'
          refine ⟨?_, hl⟩
          rw [countFwd_cons_ne _ _ _ (isFwdFor_fwdData_ne _ _ _ (Ne.symm hne))]
          exact hc
      · exact ih e h

theorem dataFwdLoop_spent (c : Cfg) (now : Time) (k : DKey) :
    ∀ (l : List (DKey × DataPktVal)) (e : Engine),
    spentT e.dataPacketTable k →
    countFwd k (dataFwdLoop c e now l).outs = 0 ∧
    spentT (dataFwdLoop c e now l).eng.dataPacketTable k := by
  intro l
  induction l with
  | nil => intro e h; exact ⟨rfl, h⟩
  | cons kv rest ih =>
    intro e h
    obtain ⟨k0, v0⟩ := kv
    unfold dataFwdLoop
    split
    · exact ⟨rfl, h⟩
    · next v hv =>
      split
      · split
        · exact ⟨rfl, h⟩
        · next d hd =>
          have hne : k ≠ k0 := by
            intro he
            obtain ⟨w, hw, hwd⟩ := h
            rw [he, hv] at hw
            obtain rfl : v = w := Option.some.inj hw
            rw [hwd] at hd
            exact Option.noConfusion hd
          obtain ⟨hc, hl⟩ := ih
            ({ e with dataPacketTable :=
                (alUpdate k0 ⟨none, v.last_time_heard, 0, false, v.duplicates⟩
                  e.dataPacketTable) }) (spentT_alUpdate_other hne h)
          refine ⟨?_, hl⟩
          rw [countFwd_cons_ne _ _ _ (isFwdFor_fwdData_ne _ _ _ (Ne.symm hne))]
          exact hc
      · exact ih e h

theorem dataFwdLoop_le_one (c : Cfg) (now : Time) (k : DKey) :
    ∀ (l : List (DKey × DataPktVal)) (e : Engine),
    countFwd k (dataFwdLoop c e now l).outs ≤ 1 ∧
    (1 ≤ countFwd k (dataFwdLoop c e now l).outs →
      spentT (dataFwdLoop c e now l).eng.dataPacketTable k) := by
  intro l
  induction l with
  | nil =>
    intro e
    exact ⟨Nat.zero_le 1, fun h => absurd h (Nat.not_succ_le_zero 0)⟩
  | cons kv rest ih =>
    intro e
    obtain ⟨k0, v0⟩ := kv
    unfold dataFwdLoop
    split
    · exact ⟨Nat.zero_le 1, fun h => absurd h (Nat.not_succ_le_zero 0)⟩
    · next v hv =>
      split
      · split
        · exact ⟨Nat.zero_le 1, fun h => absurd h (Nat.not_succ_le_zero 0)⟩
        · next d hd =>
          by_cases he : k = k0
          · subst he
            obtain ⟨hc, hsp⟩ := dataFwdLoop_spent c now k rest
              ({ e with dataPacketTable :=
                  (alUpdate k ⟨none, v.last_time_heard, 0, false, v.duplicates⟩
                    e.dataPacketTable) })
              (spentT_alUpdate_none _ _ _ _ _ _)
            constructor
            · rw [countFwd_cons_self, hc]
            · intro _
              exact hsp
          · obtain ⟨hc, hsp⟩ := ih
              ({ e with dataPacketTable :=
                  (alUpdate k0 ⟨none, v.last_time_heard, 0, false, v.duplicates⟩
                    e.dataPacketTable) })
            rw [countFwd_cons_ne _ _ _ (isFwdFor_fwdData_ne _ _ _ (Ne.symm he))]
            exact ⟨hc, hsp⟩
      · exact ih e

/-! ### Spent entries survive the tick, provided the entry is not purged -/

theorem spentT_age (c : Cfg) (e : Engine) (now : Time) (k : DKey)
    (hn : NodupKeys e.dataPacketTable) (hs : spentT e.dataPacketTable k)
    (hne : alLookup (ctrl_age c e now).dataPacketTable k ≠ none) :
    spentT (ctrl_age c e now).dataPacketTable k := by
  have hage : (ctrl_age c e now).dataPacketTable =
      e.dataPacketTable.filter
        (fun kv => decide (now - kv.2.last_time_heard ≤ c.Plt)) := rfl
  obtain ⟨w, hw, hwd⟩ := hs
  cases hv : alLookup (ctrl_age c e now).dataPacketTable k with
  | none => exact absurd hv hne
  | some v =>
    have hv' : alLookup e.dataPacketTable k = some v := by
      rw [hage] at hv
      exact alLookup_filter_eq _ hn hv
    rw [hw] at hv'
    obtain rfl : w = v := Option.some.inj hv'
    exact ⟨w, hv, hwd⟩

theorem ctrl_rx_spent (c : Cfg) (e : Engine) (now rb : Time) (k : DKey)
    (hn : NodupKeys e.dataPacketTable) (hs : spentT e.dataPacketTable k)
    (hk : alLookup (ctrl_rx c e now rb).eng.dataPacketTable k ≠ none) :
    countFwd k (ctrl_rx c e now rb).outs = 0 ∧
    spentT (ctrl_rx c e now rb).eng.dataPacketTable k := by
  have hs1 : spentT (ctrl_phase1 c e now rb).1.dataPacketTable k := by
    rw [ctrl_phase1_dataTable]; exact hs
  have hn1 : NodupKeys (ctrl_phase1 c e now rb).1.dataPacketTable := by
    rw [ctrl_phase1_dataTable]; exact hn
  obtain ⟨hc0, hsp⟩ := dataFwdLoop_spent c now k
    (ctrl_phase1 c e now rb).1.dataPacketTable (ctrl_phase1 c e now rb).1 hs1
  have hn2 := dataFwdLoop_nodup c now (ctrl_phase1 c e now rb).1.dataPacketTable
    (ctrl_phase1 c e now rb).1 hn1
  have houts : countFwd k (ctrl_rx c e now rb).outs = 0 := by
    unfold ctrl_rx
    rw [ctrl_finish_outs, countFwd_append, ctrl_phase1_outs_count, hc0]
  refine ⟨houts, ?_⟩
  revert hk
  unfold ctrl_rx ctrl_finish
  split
  · intro _
    exact hsp
  · intro hk2
    exact spentT_age c _ now k hn2 hsp hk2

theorem ctrl_rx_le_one (c : Cfg) (e : Engine) (now rb : Time) (k : DKey)
    (hn : NodupKeys e.dataPacketTable)
    (hk : alLookup e.dataPacketTable k ≠ none →
          alLookup (ctrl_rx c e now rb).eng.dataPacketTable k ≠ none) :
    countFwd k (ctrl_rx c e now rb).outs ≤ 1 ∧
    (1 ≤ countFwd k (ctrl_rx c e now rb).outs →
      spentT (ctrl_rx c e now rb).eng.dataPacketTable k) := by
  have hn1 : NodupKeys (ctrl_phase1 c e now rb).1.dataPacketTable := by
    rw [ctrl_phase1_dataTable]; exact hn
  obtain ⟨hle, hsp⟩ := dataFwdLoop_le_one c now k
    (ctrl_phase1 c e now rb).1.dataPacketTable (ctrl_phase1 c e now rb).1
  have hn2 := dataFwdLoop_nodup c now (ctrl_phase1 c e now rb).1.dataPacketTable
    (ctrl_phase1 c e now rb).1 hn1
  have houts : countFwd k (ctrl_rx c e now rb).outs =
      countFwd k (dataFwdLoop c (ctrl_phase1 c e now rb).1 now
        (ctrl_phase1 c e now rb).1.dataPacketTable).outs := by
    unfold ctrl_rx
    rw [ctrl_finish_outs, countFwd_append, ctrl_phase1_outs_count, Nat.zero_add]
  rw [houts]
  refine ⟨hle, fun h1 => ?_⟩
  have hsp2 := hsp h1
  have hlne : alLookup e.dataPacketTable k ≠ none := by
    intro hnone
    have hnone1 : alLookup (ctrl_phase1 c e now rb).1.dataPacketTable k = none := by
      rw [ctrl_phase1_dataTable]; exact hnone
    obtain ⟨hcz, _⟩ := dataFwdLoop_absent c now k
      (ctrl_phase1 c e now rb).1.dataPacketTable (ctrl_phase1 c e now rb).1 hnone1
    rw [hcz] at h1
    exact Nat.not_succ_le_zero 0 h1
  have hk2 := hk hlne
  revert hk2
  unfold ctrl_rx ctrl_finish
  split
  · intro _
    exact hsp2
  · intro hk3
    exact spentT_age c _ now k hn2 hsp2 hk3

/-! ### One event emits at most one forward per key -/

theorem step_spent (c : Cfg) (e : Engine) (ev : Event) (k : DKey)
    (hn : NodupKeys e.dataPacketTable) (hs : spentT e.dataPacketTable k)
    (hk : keptStep c e ev k) :
    countFwd k (step c e ev).outs = 0 ∧
    spentT (step c e ev).eng.dataPacketTable k := by
  cases ev with
  | appIn m =>
    refine ⟨app_rx_outs_count c e m k, ?_⟩
    show spentT (app_rx c e m).eng.dataPacketTable k
    rw [app_rx_dataTable]
    exact hs
  | tick now rb =>
    exact ctrl_rx_spent c e now rb k hn hs (hk (spentT_lookup_ne_none hs))
  | rfIn now m rnd =>
    cases m with
    | notPair => exact ⟨rfl, hs⟩
    | nonU8 _ => exact ⟨rfl, hs⟩
    | ok meta? bytes =>
      show countFwd k (radio_rx c e now rnd (RMsg.ok meta? bytes)).outs = 0 ∧
        spentT (radio_rx c e now rnd (RMsg.ok meta? bytes)).eng.dataPacketTable k
      simp only [radio_rx]
      split
      · exact ⟨rfl, hs⟩
      · split
        · exact ⟨rfl, hs⟩
        · split
          · exact ⟨rfl, hs⟩
          · split
            · exact ⟨rfl, hs⟩
            · split
              · exact ⟨rfl, hs⟩
              · split
                · refine ⟨?_, ?_⟩
                  · rw [handle_sink_packet_outs]
                    rfl
                  · rw [handle_sink_packet_dataTable]
                    exact hs
                · split
                  · exact ⟨handle_data_packet_outs_count c e now rnd _ _ k,
                      handle_data_packet_spent c e now rnd _ _ k hs⟩
                  · refine ⟨?_, handle_receive_notification_spent e _ k hs⟩
                    rw [handle_receive_notification_outs]
                    rfl

theorem step_le_one (c : Cfg) (e : Engine) (ev : Event) (k : DKey)
    (hn : NodupKeys e.dataPacketTable) (hk : keptStep c e ev k) :
    countFwd k (step c e ev).outs ≤ 1 ∧
    (1 ≤ countFwd k (step c e ev).outs →
      spentT (step c e ev).eng.dataPacketTable k) := by
  cases ev with
  | appIn m =>
    show countFwd k (app_rx c e m).outs ≤ 1 ∧
      (1 ≤ countFwd k (app_rx c e m).outs →
        spentT (app_rx c e m).eng.dataPacketTable k)
    constructor
    · rw [app_rx_outs_count]
      exact Nat.zero_le 1
    · intro h1
      rw [app_rx_outs_count] at h1
      exact absurd h1 (Nat.not_succ_le_zero 0)
  | tick now rb => exact ctrl_rx_le_one c e now rb k hn hk
  | rfIn now m rnd =>
    cases m with
    | notPair => exact ⟨Nat.zero_le 1, fun h1 => absurd h1 (Nat.not_succ_le_zero 0)⟩
    | nonU8 _ => exact ⟨Nat.zero_le 1, fun h1 => absurd h1 (Nat.not_succ_le_zero 0)⟩
    | ok meta? bytes =>
      show countFwd k (radio_rx c e now rnd (RMsg.ok meta? bytes)).outs ≤ 1 ∧
        (1 ≤ countFwd k (radio_rx c e now rnd (RMsg.ok meta? bytes)).outs →
          spentT (radio_rx c e now rnd (RMsg.ok meta? bytes)).eng.dataPacketTable k)
      simp only [radio_rx]
      split
      · exact ⟨Nat.zero_le 1, fun h1 => absurd h1 (Nat.not_succ_le_zero 0)⟩
      · split
        · exact ⟨Nat.zero_le 1, fun h1 => absurd h1 (Nat.not_succ_le_zero 0)⟩
        · split
          · exact ⟨Nat.zero_le 1, fun h1 => absurd h1 (Nat.not_succ_le_zero 0)⟩
          · split
            · exact ⟨Nat.zero_le 1, fun h1 => absurd h1 (Nat.not_succ_le_zero 0)⟩
            · split
              · exact ⟨Nat.zero_le 1, fun h1 => absurd h1 (Nat.not_succ_le_zero 0)⟩
              · split
                · constructor
                  · rw [handle_sink_packet_outs]
                    exact Nat.zero_le 1
                  · intro h1
                    rw [handle_sink_packet_outs] at h1
                    exact absurd h1 (Nat.not_succ_le_zero 0)
                · split
                  · constructor
                    · rw [handle_data_packet_outs_count]
                      exact Nat.zero_le 1
                    · intro h1
                      rw [handle_data_packet_outs_count] at h1
                      exact absurd h1 (Nat.not_succ_le_zero 0)
                  · constructor
                    · rw [handle_receive_notification_outs]
                      exact Nat.zero_le 1
                    · intro h1
                      rw [handle_receive_notification_outs] at h1
                      exact absurd h1 (Nat.not_succ_le_zero 0)

/-! ### At most one forward per key along any purge-free run -/

theorem run_spent (c : Cfg) (k : DKey) :
    ∀ (evs : List Event) (e : Engine),
    NodupKeys e.dataPacketTable → spentT e.dataPacketTable k →
    keptAll c k e evs →
    countFwd k (run c e evs).2 = 0 := by
  intro evs
  induction evs with
  | nil => intro e _ _ _; rfl
  | cons ev rest ih =>
    intro e hn hs hk
    obtain ⟨hk1, hkrest⟩ := hk
    obtain ⟨hc1, hs1⟩ := step_spent c e ev k hn hs hk1
    have hn1 := step_nodup c e ev hn
    show countFwd k ((step c e ev).outs ++ (run c (step c e ev).eng rest).2) = 0
    rw [countFwd_append, hc1, ih _ hn1 hs1 hkrest]

theorem run_le_one_aux (c : Cfg) (k : DKey) :
    ∀ (evs : List Event) (e : Engine),
    NodupKeys e.dataPacketTable → keptAll c k e evs →
    countFwd k (run c e evs).2 ≤ 1 := by
  intro evs
  induction evs with
  | nil => intro e _ _; exact Nat.zero_le 1
  | cons ev rest ih =>
    intro e hn hk
    obtain ⟨hk1, hkrest⟩ := hk
    have hn1 := step_nodup c e ev hn
    obtain ⟨hle, hsp⟩ := step_le_one c e ev k hn hk1
    show countFwd k ((step c e ev).outs ++ (run c (step c e ev).eng rest).2) ≤ 1
    rw [countFwd_append]
    cases Nat.eq_zero_or_pos (countFwd k (step c e ev).outs) with
    | inl hz =>
      rw [hz, Nat.zero_add]
      exact ih _ hn1 hkrest
    | inr hpos =>
      have hs1 := hsp hpos
      have hz2 := run_spent c k rest _ hn1 hs1 hkrest
      rw [hz2, Nat.add_zero]
      exact hle

/-- C3 (corrected): across any sequence of ticks and packet receipts in
which the data-table entry for key `k = (src, dest, seq)` is never removed
by aging, the node emits the stored pending bytes for `k` at most once
(duplicates and NOTIs included).  If the entry ages out and the packet is
received again, a second forward can occur, see the counterexample. -/
theorem c3_amended_at_most_one_forward (c : Cfg) (e : Engine) (k : DKey)
    (evs : List Event) (hn : NodupKeys e.dataPacketTable)
    (hk : keptAll c k e evs) :
    countFwd k (run c e evs).2 ≤ 1 :=
  run_le_one_aux c k evs e hn hk

/-- Witness for C3's amended theorem: the purge-free prefix of the
counterexample trace, during which exactly one forward happens. -/
theorem c3_amended_witness :
    countFwd (3, 0, 7) (run cfgDbg engFresh evsOneFwd).2 ≤ 1 :=
  c3_amended_at_most_one_forward cfgDbg engFresh (3, 0, 7) evsOneFwd
    (by simp [NodupKeys, engFresh])
    (by
      simp only [evsOneFwd, keptAll, keptStep]
      refine ⟨fun h => absurd ?_ h, fun h => absurd ?_ h, fun h => ?_, trivial⟩
      · with_unfolding_all decide
      · with_unfolding_all decide
      · with_unfolding_all decide)

end DFlood
